import Mathlib

/-!
Verification development for the smart-relayer core (a Redis-protocol
relayer written in Go).  Each section embeds one component of the source
tree as executable Lean definitions — pure functions over explicit state —
and proves or refutes the specification claims about it.

Conventions used throughout:
* Go byte slices are modelled as `List Nat`, each element an octet value;
  `strBytes` converts an ASCII Lean string to that form.
* Go machine integers are modelled as `Int`/`Nat`; where Go's `strconv.Atoi`
  range-checks against int64 this is modelled explicitly.
* Fallible Go functions returning `(T, error)` become `Except Err T`.
* Recursion that Go expresses as unbounded loops is expressed with an
  explicit fuel parameter; callers supply fuel large enough for the inputs
  considered, which the theorems make precise.
-/

/-- Octets of an ASCII string, the model of a Go byte-slice literal. -/
def strBytes (s : String) : List Nat := s.data.map Char.toNat

/-! ## Channel-send helpers (src/redis/server.go `sendRequest`,
`sendAsyncRequest`, `sendAsyncResponse`, and the older variants in
src/unnamed/part_002)

The helpers' observable behaviour depends only on the state of the channel
argument, modelled by `ChanState`.  A send on a closed Go channel panics;
whether the helper's `defer` stops that panic is a fact of Go's `recover`
rules:  `recover` returns `nil` (and the panic keeps unwinding) unless it
is called *directly by* a deferred function.  A deferred closure that calls
`recover` inside, as in src/redis/server.go lines 397-403, 415-421 and
438-444, therefore stops the panic; a bare `defer recover()`, as in
src/unnamed/part_002 lines 246 and 262, defers `recover` itself — no
deferred function calls it — so the panic is NOT stopped. -/

/-- State of a Go channel as seen by a single send attempt. -/
inductive ChanState
  | nilChan
  | closedChan
  | openChan (hasSpace : Bool)
deriving DecidableEq

/-- Result of running one of the send helpers: a normal boolean return, or
a panic escaping to the caller. -/
inductive SendOutcome
  | ret (ok : Bool)
  | panicked
deriving DecidableEq

/-- Models `sendRequest` (src/redis/server.go lines 396-412).  A nil
channel returns false; a blocking send on an open channel completes (we
abstract from the waiting time); a send on a closed channel panics, the
panic is recovered by the deferred closure and `ok` is set to false. -/
def sendRequest : ChanState → SendOutcome
  | .nilChan => .ret false
  | .closedChan => .ret false
  | .openChan _ => .ret true

/-- Models `sendAsyncRequest` (src/redis/server.go lines 414-435).
Non-blocking select: a full open channel takes the default branch and
returns false; a closed channel panics inside the select and the deferred
closure recovers, returning false. -/
def sendAsyncRequest : ChanState → SendOutcome
  | .nilChan => .ret false
  | .closedChan => .ret false
  | .openChan true => .ret true
  | .openChan false => .ret false

/-- Models `sendAsyncResponse` (src/redis/server.go lines 437-458), same
control flow as `sendAsyncRequest` with a byte-slice payload. -/
def sendAsyncResponse : ChanState → SendOutcome
  | .nilChan => .ret false
  | .closedChan => .ret false
  | .openChan true => .ret true
  | .openChan false => .ret false

/-- Models the older `sendAsyncRequest` of src/unnamed/part_002 lines
245-259.  Its `defer recover()` defers `recover` itself, which by Go's
recover rules does not stop a panic, so the closed-channel send panic
escapes to the caller. -/
def sendAsyncRequestP2 : ChanState → SendOutcome
  | .nilChan => .ret false
  | .closedChan => .panicked
  | .openChan true => .ret true
  | .openChan false => .ret false

/-- Models the older `sendAsyncResponse` of src/unnamed/part_002 lines
261-275, with the same ineffective `defer recover()`. -/
def sendAsyncResponseP2 : ChanState → SendOutcome
  | .nilChan => .ret false
  | .closedChan => .panicked
  | .openChan true => .ret true
  | .openChan false => .ret false

/-! ## InterRecord (src/unnamed/part_003, lib package, lines 173-307) -/

/-- Model of the Go `interface{}` values stored in `InterRecord.Data`. -/
inductive GoValue
  | str (s : String)
  | bytes (b : List Nat)
  | intv (n : Int)
deriving DecidableEq

/-- Model of `lib.InterRecord`.  `Data` (a Go `map[string]interface{}`)
is an association list looked up by key. -/
structure InterRecord where
  Types : Int
  Ts : Int
  Data : List (String × GoValue)
  Raw : List Nat
  compressFields : Bool
deriving DecidableEq

/-- Models `InterRecord.isBytes`: mark the record as holding byte-valued
fields when the value is a byte slice. -/
def InterRecord.isBytes (r : InterRecord) (value : GoValue) : InterRecord :=
  match value with
  | .bytes _ => { r with compressFields := true }
  | _ => r

/-- Models `InterRecord.Add` (src/unnamed/part_003 lines 196-201): insert
`value` under `key` only when the key is absent from `Data`. -/
def InterRecord.Add (r : InterRecord) (key : String) (value : GoValue) : InterRecord :=
  match r.Data.lookup key with
  | some _ => r
  | none =>
    let r1 := r.isBytes value
    { r1 with Data := r1.Data ++ [(key, value)] }

/-- C10: `InterRecord.Add` inserts only when the key is absent: if `Data`
already contains `key`, the call leaves the record — in particular the
`Data` map — unchanged, for every key and value. -/
theorem c10_add_first_write_wins (r : InterRecord) (key : String) (value : GoValue)
    (h : (r.Data.lookup key).isSome) : InterRecord.Add r key value = r := by
  unfold InterRecord.Add
  cases hl : r.Data.lookup key with
  | some v => rfl
  | none => rw [hl] at h; simp [Option.isSome] at h

/-- Witness for C10 at a concrete record whose map already binds the key. -/
theorem c10_add_first_write_wins_witness :
    InterRecord.Add ⟨0, 0, [("k", .str "v")], [], false⟩ "k" (.str "w")
      = ⟨0, 0, [("k", .str "v")], [], false⟩ :=
  c10_add_first_write_wins ⟨0, 0, [("k", .str "v")], [], false⟩ "k" (.str "w") (by decide)

/-- C9 counterexample: the part_002 variant of `sendAsyncRequest` lets the
closed-channel panic escape instead of returning `ok == false`, so the
helpers do not all contain panics. -/
theorem c9_counterexample :
    sendAsyncRequestP2 .closedChan = .panicked
      ∧ sendAsyncRequestP2 .closedChan ≠ .ret false := by
  decide

/-- C9 amended: the three helpers in src/redis/server.go never propagate a
panic — for every channel state they return a boolean — and both the nil
channel and the closed channel yield `ok = false`. -/
theorem c9_send_helpers :
    (∀ st : ChanState, sendRequest st ≠ .panicked
        ∧ sendAsyncRequest st ≠ .panicked ∧ sendAsyncResponse st ≠ .panicked)
      ∧ sendRequest .nilChan = .ret false
      ∧ sendRequest .closedChan = .ret false
      ∧ sendAsyncRequest .nilChan = .ret false
      ∧ sendAsyncRequest .closedChan = .ret false
      ∧ sendAsyncResponse .nilChan = .ret false
      ∧ sendAsyncResponse .closedChan = .ret false := by
  refine ⟨fun st => ?_, rfl, rfl, rfl, rfl, rfl, rfl⟩
  cases st with
  | nilChan => exact ⟨by decide, by decide, by decide⟩
  | closedChan => exact ⟨by decide, by decide, by decide⟩
  | openChan b => cases b <;> exact ⟨by decide, by decide, by decide⟩

/-! ## SQS batching worker (src/redis/rsqs/client.go, src/redis/rsqs/main.go)

A queued record is abstracted by the byte length of its serialized form
(`InterRecord.StringUniqID` / `InterRecord.Len`), which is the only
attribute the batching logic inspects.  The worker state is the local
batch (the list of queued record sizes) plus the running byte count;
`sqsStep` is one iteration of `Client.listen`'s select, and `sqsRun`
folds a whole event sequence, collecting every batch handed to
`putRecordBatch` (a flush of a non-empty batch). -/

/-- Transport limit per record, `maxRecordSize` in src/redis/rsqs/client.go. -/
def maxRecordSize : Nat := 262144

/-- Default batch length bound, `maxBatchRecords` in src/redis/rsqs/client.go. -/
def maxBatchRecords : Nat := 10

/-- Models the `MaxRecords` normalization in `Server.Reload`
(src/redis/rsqs/main.go lines 93-95): non-positive configured values take
the default 10. -/
def reloadMaxRecords (c : Int) : Nat :=
  if c ≤ 0 then maxBatchRecords else c.toNat

/-- Worker-local batching state of `rsqs.Client`. -/
structure SqsClient where
  batch : List Nat
  batchSize : Nat
deriving DecidableEq

/-- Models `Client.append` (src/redis/rsqs/client.go lines 61-81): a record
whose serialized form exceeds `maxRecordSize` is rejected with an error and
not added; otherwise it is appended and the byte count grows. -/
def sqsAppend (clt : SqsClient) (sz : Nat) : Except String SqsClient :=
  if sz > maxRecordSize then
    .error "SQS ERROR: the message is over 256KB can't be send"
  else
    .ok { batch := clt.batch ++ [sz], batchSize := clt.batchSize + sz }

/-- Models `Client.flush` (src/redis/rsqs/client.go lines 136-154): an empty
batch is not sent; otherwise the batch goes to `putRecordBatch` and the
state resets.  The emitted list carries the flushed batches. -/
def sqsFlush (clt : SqsClient) : SqsClient × List (List Nat) :=
  if clt.batch = [] then (clt, [])
  else ({ batch := [], batchSize := 0 }, [clt.batch])

/-- One arrival on the worker's select loop (src/redis/rsqs/client.go
lines 83-133): a sync submission, an async record, the flush timer, or the
shutdown signal.  Records carry their serialized size. -/
inductive SqsEvent
  | syncRecord (sz : Nat)
  | record (sz : Nat)
  | timerFire
  | doneSignal
deriving DecidableEq

/-- Models one iteration of `Client.listen` (src/redis/rsqs/client.go lines
83-133).  Empty records (`Len() <= 0`) are skipped.  A sync record is
appended (rejection signalling false on its ack channel) and flushed at
once.  An async record first forces a flush when `len(batch)+1 >=
MaxRecords`, then is appended.  Timer and done events flush. -/
def sqsStep (maxRecords : Nat) (clt : SqsClient) (ev : SqsEvent) :
    SqsClient × List (List Nat) :=
  match ev with
  | .syncRecord sz =>
    if sz = 0 then (clt, [])
    else
      match sqsAppend clt sz with
      | .error _ => (clt, [])
      | .ok c1 => sqsFlush c1
  | .record sz =>
    if sz = 0 then (clt, [])
    else
      let fl := if clt.batch.length + 1 ≥ maxRecords then sqsFlush clt else (clt, [])
      match sqsAppend fl.1 sz with
      | .error _ => (fl.1, fl.2)
      | .ok c2 => (c2, fl.2)
  | .timerFire => sqsFlush clt
  | .doneSignal => sqsFlush clt

/-- Runs `sqsStep` over an event sequence, collecting all flushed batches. -/
def sqsRun (maxRecords : Nat) (clt : SqsClient) : List SqsEvent → SqsClient × List (List Nat)
  | [] => (clt, [])
  | ev :: evs =>
    let st := sqsStep maxRecords clt ev
    let rest := sqsRun maxRecords st.1 evs
    (rest.1, st.2 ++ rest.2)

/-- Batch invariant maintained between select iterations: fewer than
`maxRecords` queued entries, each within the transport limit. -/
def SqsInv (maxRecords : Nat) (clt : SqsClient) : Prop :=
  clt.batch.length + 1 ≤ maxRecords ∧ ∀ x ∈ clt.batch, x ≤ maxRecordSize

/-- Flushed-batch bound carried by every emitted batch. -/
def SqsBatchOk (maxRecords : Nat) (b : List Nat) : Prop :=
  b.length ≤ maxRecords ∧ ∀ x ∈ b, x ≤ maxRecordSize

theorem sqsFlush_inv (maxRecords : Nat) (clt : SqsClient)
    (h : SqsInv maxRecords clt) :
    SqsInv maxRecords (sqsFlush clt).1
      ∧ ∀ b ∈ (sqsFlush clt).2, SqsBatchOk maxRecords b := by
  obtain ⟨hlen, hsz⟩ := h
  by_cases hb : clt.batch = []
  · constructor
    · refine ⟨?_, ?_⟩
      · simp [sqsFlush, hb]
        omega
      · intro x hx
        simp only [sqsFlush, hb, if_pos] at hx
        simp at hx
    · simp [sqsFlush, hb]
  · have h1 : 0 < clt.batch.length := List.length_pos.mpr hb
    constructor
    · refine ⟨?_, ?_⟩
      · simp [sqsFlush, hb]
        omega
      · simp [sqsFlush, hb]
    · intro b hbm
      simp [sqsFlush, hb] at hbm
      subst hbm
      exact ⟨by omega, hsz⟩

theorem sqsStep_inv (maxRecords : Nat) (hm : 2 ≤ maxRecords)
    (clt : SqsClient) (ev : SqsEvent) (h : SqsInv maxRecords clt) :
    SqsInv maxRecords (sqsStep maxRecords clt ev).1
      ∧ ∀ b ∈ (sqsStep maxRecords clt ev).2, SqsBatchOk maxRecords b := by
  obtain ⟨hlen, hsz⟩ := h
  cases ev with
  | syncRecord sz =>
    by_cases hz : sz = 0
    · constructor
      · simpa [sqsStep, hz, SqsInv] using ⟨hlen, hsz⟩
      · simp [sqsStep, hz]
    · by_cases hbig : sz > maxRecordSize
      · constructor
        · simpa [sqsStep, hz, sqsAppend, hbig, SqsInv] using ⟨hlen, hsz⟩
        · simp [sqsStep, hz, sqsAppend, hbig]
      · have hne : clt.batch ++ [sz] ≠ [] := by simp
        constructor
        · refine ⟨?_, ?_⟩ <;> simp [sqsStep, hz, sqsAppend, hbig, sqsFlush, hne, SqsInv]
          omega
        · intro b hbm
          simp [sqsStep, hz, sqsAppend, hbig, sqsFlush, hne] at hbm
          subst hbm
          refine ⟨by simp; omega, ?_⟩
          intro x hx
          rcases List.mem_append.mp hx with hx | hx
          · exact hsz x hx
          · simp at hx; omega
  | record sz =>
    by_cases hz : sz = 0
    · constructor
      · simpa [sqsStep, hz, SqsInv] using ⟨hlen, hsz⟩
      · simp [sqsStep, hz]
    · by_cases hfl : clt.batch.length + 1 ≥ maxRecords
      · have hflush := sqsFlush_inv maxRecords clt ⟨hlen, hsz⟩
        have hempty : (sqsFlush clt).1.batch = [] := by
          by_cases hb : clt.batch = [] <;> simp [sqsFlush, hb]
        by_cases hbig : sz > maxRecordSize
        · constructor
          · simpa [sqsStep, hz, hfl, sqsAppend, hbig] using hflush.1
          · intro b hbm
            simp only [sqsStep, if_neg hz, ge_iff_le, hfl, if_pos, sqsAppend,
              if_pos hbig] at hbm
            exact hflush.2 b hbm
        · constructor
          · refine ⟨?_, ?_⟩
            · simp [sqsStep, hz, hfl, sqsAppend, hbig, hempty]
              omega
            · intro x hx
              simp [sqsStep, hz, hfl, sqsAppend, hbig, hempty] at hx
              omega
          · intro b hbm
            simp only [sqsStep, if_neg hz, ge_iff_le, hfl, if_pos, sqsAppend,
              if_neg hbig] at hbm
            exact hflush.2 b hbm
      · by_cases hbig : sz > maxRecordSize
        · constructor
          · simpa [sqsStep, hz, hfl, sqsAppend, hbig, SqsInv] using ⟨hlen, hsz⟩
          · simp [sqsStep, hz, hfl, sqsAppend, hbig]
        · constructor
          · refine ⟨?_, ?_⟩
            · simp [sqsStep, hz, hfl, sqsAppend, hbig]
              omega
            · intro x hx
              simp [sqsStep, hz, hfl, sqsAppend, hbig] at hx
              rcases hx with hx | hx
              · exact hsz x hx
              · omega
          · simp [sqsStep, hz, hfl, sqsAppend, hbig]
  | timerFire => exact sqsFlush_inv maxRecords clt ⟨hlen, hsz⟩
  | doneSignal => exact sqsFlush_inv maxRecords clt ⟨hlen, hsz⟩

theorem sqsRun_inv (maxRecords : Nat) (hm : 2 ≤ maxRecords)
    (evs : List SqsEvent) (clt : SqsClient) (h : SqsInv maxRecords clt) :
    ∀ b ∈ (sqsRun maxRecords clt evs).2, SqsBatchOk maxRecords b := by
  induction evs generalizing clt with
  | nil => simp [sqsRun]
  | cons ev evs ih =>
    intro b hb
    have hstep := sqsStep_inv maxRecords hm clt ev h
    simp only [sqsRun, List.mem_append] at hb
    rcases hb with hb | hb
    · exact hstep.2 b hb
    · exact ih (sqsStep maxRecords clt ev).1 hstep.1 b hb

/-- C8 counterexample: with `MaxRecords = 1` (a value `Reload` accepts
unchanged) the sync-submission path appends without a limit check, so the
run `[record 5, syncRecord 7]` flushes the two-entry batch `[5, 7]`,
exceeding `MaxRecords`. -/
theorem c8_counterexample :
    reloadMaxRecords 1 = 1
      ∧ (sqsRun (reloadMaxRecords 1) ⟨[], 0⟩ [.record 5, .syncRecord 7]).2 = [[5, 7]]
      ∧ ¬ ([5, 7].length ≤ reloadMaxRecords 1) := by
  decide

/-- C8 amended: provided the configured `MaxRecords` is at least 2 — the
default 10 from `reloadMaxRecords` qualifies — every batch a worker run
flushes holds at most `MaxRecords` entries, each of serialized size at most
262144 bytes; and `append` rejects any record whose serialized form exceeds
262144 bytes with an error instead of adding it.  With `MaxRecords = 1` a
sync submission can flush a 2-entry batch (see the counterexample). -/
theorem c8_batch_bounds (maxRecords : Nat) (hm : 2 ≤ maxRecords)
    (evs : List SqsEvent) :
    (∀ b ∈ (sqsRun maxRecords ⟨[], 0⟩ evs).2,
        b.length ≤ maxRecords ∧ ∀ x ∈ b, x ≤ maxRecordSize)
      ∧ (∀ clt : SqsClient, ∀ sz : Nat, sz > maxRecordSize →
          sqsAppend clt sz = .error "SQS ERROR: the message is over 256KB can't be send") := by
  constructor
  · exact sqsRun_inv maxRecords hm evs ⟨[], 0⟩ ⟨by simp; omega, by simp⟩
  · intro clt sz hsz
    unfold sqsAppend
    simp [hsz]

/-- Witness for C8 at the default `MaxRecords = 10` and a concrete run that
flushes twice and exercises the per-record rejection. -/
theorem c8_batch_bounds_witness :
    (2 ≤ reloadMaxRecords 0)
      ∧ ((∀ b ∈ (sqsRun (reloadMaxRecords 0) ⟨[], 0⟩
            [.record 3, .record 4, .timerFire, .syncRecord 9]).2,
          b.length ≤ reloadMaxRecords 0 ∧ ∀ x ∈ b, x ≤ maxRecordSize)
        ∧ (∀ clt : SqsClient, ∀ sz : Nat, sz > maxRecordSize →
            sqsAppend clt sz = .error "SQS ERROR: the message is over 256KB can't be send")) :=
  ⟨by decide, c8_batch_bounds (reloadMaxRecords 0) (by decide)
    [.record 3, .record 4, .timerFire, .syncRecord 9]⟩

/-! ## Filesystem archive backend (src/redis/fs/main.go, src/redis/fs/msg.go)

Messages carry a project, a key, a timestamp and a payload; the server
routes them to shards and derives file paths.  Timestamps are modelled by
their UTC calendar fields, the only data the path derivation reads.
`fmtDec`, `fmt2d` and `fmt02x` model the `%d`, `%.2d` and `%02x` fmt verbs
for the non-negative values that occur. -/

/-- Decimal rendering of a Nat, the `%d` verb. -/
def fmtDec (n : Nat) : String := String.mk (Nat.toDigits 10 n)

/-- Zero-padded two-digit decimal, the `%.2d` verb. -/
def fmt2d (n : Nat) : String := if n < 10 then "0" ++ fmtDec n else fmtDec n

/-- Lowercase hexadecimal rendering of a Nat, the `%x` verb. -/
def fmtHex (n : Nat) : String := String.mk (Nat.toDigits 16 n)

/-- Zero-padded two-digit lowercase hexadecimal, the `%02x` verb. -/
def fmt02x (n : Nat) : String := if n < 16 then "0" ++ fmtHex n else fmtHex n

/-- The `%02x` verb on a Go int, which renders a sign for negatives (that
path is unreachable from `Msg.path`, where the shard is non-negative). -/
def fmt02xInt (i : Int) : String :=
  if i < 0 then "-" ++ fmtHex i.natAbs else fmt02x i.toNat

/-- CRC-32 polynomial (reversed IEEE), as in Go's `hash/crc32`. -/
def crc32Poly : Nat := 0xEDB88320

/-- One bit-step of the CRC-32 computation. -/
def crc32Round (c : Nat) : Nat :=
  if c % 2 = 1 then (c / 2) ^^^ crc32Poly else c / 2

/-- Iterated bit-steps. -/
def crc32Bits : Nat → Nat → Nat
  | 0, c => c
  | k + 1, c => crc32Bits k (crc32Round c)

/-- Fold one byte into the CRC-32 state. -/
def crc32Byte (c b : Nat) : Nat := crc32Bits 8 (c ^^^ (b % 256))

/-- Models `crc32.ChecksumIEEE` from Go's standard library. -/
def crc32 (data : List Nat) : Nat :=
  (data.foldl crc32Byte 0xFFFFFFFF) ^^^ 0xFFFFFFFF

/-- UTC calendar fields of a Go `time.Time`, the data `Msg.path` reads. -/
structure GoTime where
  year : Nat
  month : Nat
  day : Nat
  hour : Nat
  minute : Nat
deriving DecidableEq

/-- The configuration fields of `lib.RelayerConfig` the fs backend's path
derivation consumes. -/
structure FsConfig where
  Path : String
  Compress : Bool
deriving DecidableEq

/-- The fs `Server` state relevant to routing: the saved config and the
effective shard count `srv.shards` (a Go uint32). -/
structure FsServerState where
  config : FsConfig
  shards : Nat
deriving DecidableEq

/-- Model of `fs.Msg` (src/redis/fs/msg.go lines 52-60) without the
back-pointer (functions take the server explicitly) and without the byte
buffer, which the path derivation does not read. -/
structure Msg where
  project : String
  k : String
  t : GoTime
  shard : Int
  disableShards : Bool
deriving DecidableEq

/-- Default shard count applied by `Reload`, `defaultShards` in
src/redis/fs/main.go. -/
def defaultShards : Nat := 64

/-- Models the shard-count normalization in `Server.Reload`
(src/redis/fs/main.go lines 111-120): a configured `Shards == 0` is
treated as undefined and replaced by the default 64; only a positive
(post-default) value is then assigned to `srv.shards` (as uint32), so a
negative configured value leaves `srv.shards` at its previous value —
zero for a freshly constructed server. -/
def reloadShards (configShards : Int) (prev : Nat) : Nat :=
  let cs := if configShards = 0 then (defaultShards : Int) else configShards
  if cs > 0 then cs.toNat % 2 ^ 32 else prev

/-- Models `Msg.hourpath` (src/redis/fs/msg.go lines 73-75). -/
def Msg.hourpath (m : Msg) : String :=
  m.project ++ "/" ++ fmtDec m.t.year ++ "/" ++ fmt2d m.t.month ++ "/"
    ++ fmt2d m.t.day ++ "/" ++ fmt2d m.t.hour

/-- Models `Msg.getShard` (src/redis/fs/msg.go lines 89-101): a cached
non-negative shard is reused; with sharding disabled the (uncomputed)
shard field comes back; otherwise the shard is `CRC32(key) mod shards`. -/
def Msg.getShard (srv : FsServerState) (m : Msg) : Int :=
  if m.shard ≥ 0 then m.shard
  else if srv.shards = 0 ∨ m.disableShards then m.shard
  else ((crc32 (strBytes m.k) % srv.shards : Nat) : Int)

/-- Models `Msg.path` (src/redis/fs/msg.go lines 80-87): without sharding
the path stops at the minute; with sharding a two-digit hex shard
component is appended. -/
def Msg.path (srv : FsServerState) (m : Msg) : String :=
  if srv.shards = 0 ∨ m.disableShards then
    m.hourpath ++ "/" ++ fmt2d m.t.minute
  else
    m.hourpath ++ "/" ++ fmt2d m.t.minute ++ "/" ++ fmt02xInt (Msg.getShard srv m)

/-- Models `Msg.fullpath` (src/redis/fs/msg.go lines 68-70). -/
def Msg.fullpath (srv : FsServerState) (m : Msg) : String :=
  srv.config.Path ++ "/" ++ Msg.path srv m

/-- File extensions `extPlain`/`extGz` of src/redis/fs/msg.go. -/
def extPlain : String := "log"

/-- Gzip extension. -/
def extGz : String := "log.gz"

/-- Models `Msg.filenameGz`. -/
def Msg.filenameGz (m : Msg) : String := m.k ++ "." ++ extGz

/-- Models `Msg.filenamePlain`. -/
def Msg.filenamePlain (m : Msg) : String := m.k ++ "." ++ extPlain

/-- Models `Msg.filename` (src/redis/fs/msg.go lines 103-108). -/
def Msg.filename (srv : FsServerState) (m : Msg) : String :=
  if srv.config.Compress then m.filenameGz else m.filenamePlain

/-- C5 counterexample: reloading a fresh server with `Shards == 0` yields
`srv.shards = 64`, and a concrete message then takes a sharded path — its
file path carries the shard component `03` (CRC32("a") mod 64 = 3) instead
of the single-shard path. -/
theorem c5_counterexample :
    reloadShards 0 0 = 64
      ∧ Msg.path ⟨⟨"/tmp", false⟩, reloadShards 0 0⟩ ⟨"p", "a", ⟨2024, 1, 2, 3, 4⟩, -1, false⟩
          = "p/2024/01/02/03/04/03"
      ∧ Msg.path ⟨⟨"/tmp", false⟩, reloadShards 0 0⟩ ⟨"p", "a", ⟨2024, 1, 2, 3, 4⟩, -1, false⟩
          ≠ "p/2024/01/02/03/04" := by
  decide

/-- C5 amended: configuring `Shards == 0` does not disable sharding — it
applies the default of 64 shards.  Sharding is disabled by a negative
`Shards` value: on a fresh server (previous shard count 0) `Reload` then
leaves `srv.shards = 0` and every message takes the single-shard path,
whose file path contains no shard component. -/
theorem c5_shards_reload (cs : Int) (hneg : cs < 0) :
    reloadShards cs 0 = 0
      ∧ reloadShards 0 0 = defaultShards
      ∧ ∀ (srv : FsServerState) (m : Msg), srv.shards = 0 →
          Msg.path srv m = m.hourpath ++ "/" ++ fmt2d m.t.minute := by
  refine ⟨?_, by decide, ?_⟩
  · unfold reloadShards
    have h0 : cs ≠ 0 := by omega
    simp only [h0, if_neg h0]
    have : ¬ cs > 0 := by omega
    simp [this]
  · intro srv m hz
    unfold Msg.path
    simp [hz]

/-- Witness for C5 at `Shards = -1` and a concrete message. -/
theorem c5_shards_reload_witness :
    ((-1 : Int) < 0)
      ∧ (reloadShards (-1) 0 = 0
          ∧ reloadShards 0 0 = defaultShards
          ∧ ∀ (srv : FsServerState) (m : Msg), srv.shards = 0 →
              Msg.path srv m = m.hourpath ++ "/" ++ fmt2d m.t.minute) :=
  ⟨by decide, c5_shards_reload (-1) (by decide)⟩

/-- C6: with a fixed positive shard count `S`, a fresh message's shard is
`CRC32(key) mod S`, and its full file path is exactly
`basePath/project/YYYY/MM/DD/HH/MM/(shard as two hex digits)/key.ext`
with `ext` equal to `log.gz` or `log` according to the compress flag;
messages with identical project, key, timestamp and sharding state yield
identical paths. -/
theorem c6_shard_path (srv : FsServerState) (m m2 : Msg)
    (hS : 0 < srv.shards) (hfresh : m.shard = -1) (hds : m.disableShards = false) :
    Msg.getShard srv m = ((crc32 (strBytes m.k) % srv.shards : Nat) : Int)
      ∧ Msg.fullpath srv m ++ "/" ++ Msg.filename srv m
          = srv.config.Path ++ "/" ++ m.project ++ "/" ++ fmtDec m.t.year ++ "/"
            ++ fmt2d m.t.month ++ "/" ++ fmt2d m.t.day ++ "/" ++ fmt2d m.t.hour ++ "/"
            ++ fmt2d m.t.minute ++ "/" ++ fmt02x (crc32 (strBytes m.k) % srv.shards)
            ++ "/" ++ m.k ++ "." ++ (if srv.config.Compress then extGz else extPlain)
      ∧ (m2.project = m.project → m2.k = m.k → m2.t = m.t → m2.shard = m.shard →
          m2.disableShards = m.disableShards →
          Msg.fullpath srv m2 ++ "/" ++ Msg.filename srv m2
            = Msg.fullpath srv m ++ "/" ++ Msg.filename srv m) := by
  have hz : ¬ (srv.shards = 0 ∨ m.disableShards) := by
    rintro (h | h)
    · omega
    · rw [hds] at h
      exact Bool.false_ne_true h
  have hsh : Msg.getShard srv m = ((crc32 (strBytes m.k) % srv.shards : Nat) : Int) := by
    unfold Msg.getShard
    rw [if_neg (by omega : ¬ m.shard ≥ 0), if_neg hz]
  refine ⟨hsh, ?_, ?_⟩
  · unfold Msg.fullpath Msg.path Msg.filename Msg.filenameGz Msg.filenamePlain Msg.hourpath
    rw [if_neg hz, hsh]
    have hx : fmt02xInt ((crc32 (strBytes m.k) % srv.shards : Nat) : Int)
        = fmt02x (crc32 (strBytes m.k) % srv.shards) := by
      unfold fmt02xInt
      rw [if_neg (by omega : ¬ ((crc32 (strBytes m.k) % srv.shards : Nat) : Int) < 0)]
      norm_cast
    rw [hx]
    by_cases hc : srv.config.Compress <;> simp [hc, String.append_assoc]
  · intro h1 h2 h3 h4 h5
    unfold Msg.fullpath Msg.path Msg.filename Msg.filenameGz Msg.filenamePlain
      Msg.hourpath Msg.getShard
    rw [h1, h2, h3, h4, h5]

/-- Witness for C6 at a concrete server and message. -/
theorem c6_shard_path_witness :
    (0 < (4 : Nat))
      ∧ (Msg.getShard ⟨⟨"/data", true⟩, 4⟩ ⟨"p", "k", ⟨2024, 12, 31, 23, 59⟩, -1, false⟩
            = ((crc32 (strBytes "k") % 4 : Nat) : Int)
          ∧ Msg.fullpath ⟨⟨"/data", true⟩, 4⟩ ⟨"p", "k", ⟨2024, 12, 31, 23, 59⟩, -1, false⟩
              ++ "/" ++ Msg.filename ⟨⟨"/data", true⟩, 4⟩ ⟨"p", "k", ⟨2024, 12, 31, 23, 59⟩, -1, false⟩
            = "/data" ++ "/" ++ "p" ++ "/" ++ fmtDec 2024 ++ "/" ++ fmt2d 12 ++ "/"
              ++ fmt2d 31 ++ "/" ++ fmt2d 23 ++ "/" ++ fmt2d 59 ++ "/"
              ++ fmt02x (crc32 (strBytes "k") % 4) ++ "/" ++ "k" ++ "."
              ++ (if (true : Bool) then extGz else extPlain)
          ∧ (("p" : String) = "p" → ("k" : String) = "k"
              → (⟨2024, 12, 31, 23, 59⟩ : GoTime) = ⟨2024, 12, 31, 23, 59⟩
              → ((-1 : Int) = -1) → ((false : Bool) = false) →
              Msg.fullpath ⟨⟨"/data", true⟩, 4⟩ ⟨"p", "k", ⟨2024, 12, 31, 23, 59⟩, -1, false⟩
                  ++ "/" ++ Msg.filename ⟨⟨"/data", true⟩, 4⟩ ⟨"p", "k", ⟨2024, 12, 31, 23, 59⟩, -1, false⟩
                = Msg.fullpath ⟨⟨"/data", true⟩, 4⟩ ⟨"p", "k", ⟨2024, 12, 31, 23, 59⟩, -1, false⟩
                  ++ "/" ++ Msg.filename ⟨⟨"/data", true⟩, 4⟩ ⟨"p", "k", ⟨2024, 12, 31, 23, 59⟩, -1, false⟩)) :=
  ⟨by decide, c6_shard_path ⟨⟨"/data", true⟩, 4⟩ ⟨"p", "k", ⟨2024, 12, 31, 23, 59⟩, -1, false⟩
    ⟨"p", "k", ⟨2024, 12, 31, 23, 59⟩, -1, false⟩ (by decide) (by decide) (by decide)⟩

/-! ## Reading a message back (src/redis/fs/msg.go `Msg.Bytes`,
src/redis/fs/main.go `Server.get` / `handleConnection`)

The filesystem is abstracted as a partial map from path to content
(`none` = `os.Open` fails with an `*os.PathError`), gzip decoding as a
fallible function, and the S3 fallback as a result value.  Error values
are collapsed to their type identity, which is all the callers inspect. -/

/-- The error identities distinguished by the read path: an
`*os.PathError` from `os.Open`, `io.EOF`, a gzip failure, any other. -/
inductive GoErr
  | pathErr
  | eofErr
  | gzipErr
  | otherErr
deriving DecidableEq

/-- Models `Msg.bytesFile` (src/redis/fs/msg.go lines 149-184): a missing
file is a path error; a plain file is read whole; a zero-size gzip file is
turned into `io.EOF` before any gzip reader is built; otherwise the gzip
reader decodes the content. -/
def bytesFile (fs : String → Option (List Nat))
    (gunzip : List Nat → Except GoErr (List Nat)) (filename : String) (gz : Bool) :
    Except GoErr (List Nat) :=
  match fs filename with
  | none => .error .pathErr
  | some content =>
    if !gz then .ok content
    else if content.length = 0 then .error .eofErr
    else gunzip content

set_option linter.unusedVariables false in
/-- Models `Msg.Bytes` (src/redis/fs/msg.go lines 118-147).  With the
compress flag the gzip path is tried first; success returns, and `io.EOF`
(the zero-size marker) returns as-is — the comment says the file exists so
no fallback is attempted.  Any other gzip-path failure falls through to
the plain file, then to a one-shot retry with sharding disabled, then to
the S3 session. -/
def Msg.Bytes (srv : FsServerState) (fs : String → Option (List Nat))
    (gunzip : List Nat → Except GoErr (List Nat)) (s3 : Except GoErr (List Nat))
    (m : Msg) : Except GoErr (List Nat) :=
  let fallback : Except GoErr (List Nat) :=
    match bytesFile fs gunzip (Msg.fullpath srv m ++ "/" ++ m.filenamePlain) false with
    | .ok b => .ok b
    | .error _ =>
      if hds : 0 < srv.shards ∧ m.disableShards = false then
        Msg.Bytes srv fs gunzip s3 { m with disableShards := true }
      else
        s3
  if srv.config.Compress then
    match bytesFile fs gunzip (Msg.fullpath srv m ++ "/" ++ m.filenameGz) true with
    | .ok b => .ok b
    | .error e => if e = .eofErr then .error .eofErr else fallback
  else
    fallback
termination_by (if m.disableShards then 0 else 1)
decreasing_by simp [hds.2]

/-- Client-observable outcome of one GET handled by
`Server.handleConnection` (src/redis/fs/main.go lines 252-267). -/
inductive GetOutcome
  | wrote (b : List Nat)
  | notFound
  | panicked
deriving DecidableEq

/-- Models `Server.get` plus the GET error dispatch of
`Server.handleConnection` (src/redis/fs/main.go lines 252-267 and
360-393): a successful read is written to the client; on error the switch
evaluates the case expression `err.(*os.PathError)`, a comma-ok-less type
assertion that yields the not-found reply for a path error and panics the
connection goroutine for every other error type. -/
def handleGet (srv : FsServerState) (fs : String → Option (List Nat))
    (gunzip : List Nat → Except GoErr (List Nat)) (s3 : Except GoErr (List Nat))
    (m : Msg) : GetOutcome :=
  match Msg.Bytes srv fs gunzip s3 m with
  | .ok b => .wrote b
  | .error e => if e = .pathErr then .notFound else .panicked

/-- Concrete filesystem for the C7 scenarios: exactly one file, the gzip
file of key `k`, present with size zero. -/
def fsZeroGz : String → Option (List Nat) :=
  fun p => if p = "/tmp/p/2024/01/02/03/04/k.log.gz" then some [] else none

/-- A zero-size gzip file makes `Msg.Bytes` return `io.EOF` immediately,
whatever the rest of the filesystem, the decoder and the S3 fallback do. -/
theorem msgBytes_zero_gzip_eof (srv : FsServerState) (fs : String → Option (List Nat))
    (gunzip : List Nat → Except GoErr (List Nat)) (s3 : Except GoErr (List Nat))
    (m : Msg) (hc : srv.config.Compress = true)
    (hfs : fs (Msg.fullpath srv m ++ "/" ++ m.filenameGz) = some []) :
    Msg.Bytes srv fs gunzip s3 m = .error .eofErr := by
  rw [Msg.Bytes]
  simp [hc, bytesFile, hfs]

/-- C7 counterexample: with the compress flag set and the stored gzip file
for the key present with size zero, the GET does not yield an empty read —
`Msg.Bytes` returns `io.EOF` and the handler's error dispatch panics. -/
theorem c7_counterexample :
    handleGet ⟨⟨"/tmp", true⟩, 0⟩ fsZeroGz (fun _ => .error .gzipErr) (.error .otherErr)
        ⟨"p", "k", ⟨2024, 1, 2, 3, 4⟩, -1, false⟩
      = .panicked
    ∧ handleGet ⟨⟨"/tmp", true⟩, 0⟩ fsZeroGz (fun _ => .error .gzipErr) (.error .otherErr)
        ⟨"p", "k", ⟨2024, 1, 2, 3, 4⟩, -1, false⟩
      ≠ .wrote [] := by
  have hb := msgBytes_zero_gzip_eof ⟨⟨"/tmp", true⟩, 0⟩ fsZeroGz
    (fun _ => .error .gzipErr) (.error .otherErr)
    ⟨"p", "k", ⟨2024, 1, 2, 3, 4⟩, -1, false⟩ rfl (by decide)
  refine ⟨by simp [handleGet, hb], by simp [handleGet, hb]⟩

/-- C7 amended: a zero-size gzip file short-circuits the read — whatever
the rest of the filesystem, the gzip decoder and the S3 fallback hold,
`Msg.Bytes` returns `io.EOF` without falling back to the plain file or to
S3, and the GET handler then panics on that non-path error instead of
replying with an empty read. -/
theorem c7_zero_gzip (srv : FsServerState) (fs : String → Option (List Nat))
    (gunzip : List Nat → Except GoErr (List Nat)) (s3 : Except GoErr (List Nat))
    (m : Msg) (hc : srv.config.Compress = true)
    (hfs : fs (Msg.fullpath srv m ++ "/" ++ m.filenameGz) = some []) :
    Msg.Bytes srv fs gunzip s3 m = .error .eofErr
      ∧ handleGet srv fs gunzip s3 m = .panicked := by
  have hb := msgBytes_zero_gzip_eof srv fs gunzip s3 m hc hfs
  exact ⟨hb, by simp [handleGet, hb]⟩

/-- Witness for C7 at the concrete configuration of the counterexample,
with the plain-file and S3 fallbacks absent. -/
theorem c7_zero_gzip_witness :
    ((⟨⟨"/tmp", true⟩, 0⟩ : FsServerState).config.Compress = true)
      ∧ (fsZeroGz
          (Msg.fullpath ⟨⟨"/tmp", true⟩, 0⟩ ⟨"p", "k", ⟨2024, 1, 2, 3, 4⟩, -1, false⟩
            ++ "/" ++ (⟨"p", "k", ⟨2024, 1, 2, 3, 4⟩, -1, false⟩ : Msg).filenameGz)
          = some [])
      ∧ (Msg.Bytes ⟨⟨"/tmp", true⟩, 0⟩ fsZeroGz
            (fun _ => .error .gzipErr) (.error .otherErr)
            ⟨"p", "k", ⟨2024, 1, 2, 3, 4⟩, -1, false⟩ = .error .eofErr
          ∧ handleGet ⟨⟨"/tmp", true⟩, 0⟩ fsZeroGz
            (fun _ => .error .gzipErr) (.error .otherErr)
            ⟨"p", "k", ⟨2024, 1, 2, 3, 4⟩, -1, false⟩ = .panicked) :=
  ⟨rfl, by decide,
    c7_zero_gzip ⟨⟨"/tmp", true⟩, 0⟩ fsZeroGz
      (fun _ => .error .gzipErr) (.error .otherErr)
      ⟨"p", "k", ⟨2024, 1, 2, 3, 4⟩, -1, false⟩ rfl (by decide)⟩

/-! ## Smart-mode fast-ack dispatch (src/redis/server.go `init`,
`serveClient`)

The fast-ack table is the `commands` map built in `init` (lines 197-218).
One smart-mode iteration of `serveClient` for a request whose command is
in the table (lines 356-367) performs, in order: a blocking `sendRequest`
of the request to the pooled client's intake channel, and — only if that
send succeeded — the write of the canned reply to the local client.
`CEvent` records these externally visible actions in program order. -/

/-- The fast-ack table of src/redis/server.go lines 200-217: command name
to canned reply bytes. -/
def commandsTable : List (String × List Nat) :=
  [("PING", strBytes "+PONG\r\n"),
   ("SET", strBytes "+OK\r\n"),
   ("SETEX", strBytes "+OK\r\n"),
   ("PSETEX", strBytes "+OK\r\n"),
   ("MSET", strBytes "+OK\r\n"),
   ("HMSET", strBytes "+OK\r\n"),
   ("SELECT", strBytes "+OK\r\n"),
   ("DEL", strBytes ":1\r\n"),
   ("HSET", strBytes ":1\r\n"),
   ("HDEL", strBytes ":1\r\n"),
   ("EXPIRE", strBytes ":1\r\n"),
   ("EXPIREAT", strBytes ":1\r\n"),
   ("PEXPIRE", strBytes ":1\r\n"),
   ("PEXPIREAT", strBytes ":1\r\n")]

/-- Lookup in the fast-ack table, `commands[string(req.command)]`. -/
def commandsLookup (cmd : String) : Option (List Nat) := commandsTable.lookup cmd

/-- Externally visible actions of one dispatch-loop iteration: forwarding
the request (identified by its raw frame) to the backend intake channel,
and writing bytes to the local client. -/
inductive CEvent
  | sendBackend (raw : List Nat)
  | writeClient (b : List Nat)
deriving DecidableEq

/-- Result of one smart-mode fast-ack iteration: the ordered action list
and whether the loop then closes the connection. -/
structure StepResult where
  events : List CEvent
  closed : Bool
deriving DecidableEq

/-- Models the smart-mode branch of `serveClient` (src/redis/server.go
lines 356-367) for a parsed request with command `cmd` and raw frame
`raw`; `sendOk` abstracts whether the blocking `sendRequest` to
`client.requestChan` succeeds.  `none` means the command is not in the
fast-ack table and the iteration falls through to the sync path.  On
success the canned reply is written *after* the send; on failure nothing
is written and the connection closes. -/
def smartFastAck (cmd : String) (raw : List Nat) (sendOk : Bool) : Option StepResult :=
  match commandsLookup cmd with
  | none => none
  | some fastResponse =>
    if sendOk then some ⟨[.sendBackend raw, .writeClient fastResponse], false⟩
    else some ⟨[], true⟩

/-- True when some client write precedes some backend send in the action
list — the order the claim asserts for fast-ack commands. -/
def writeBeforeSendB (evs : List CEvent) : Bool :=
  let wi := evs.findIdx? (fun e => match e with | .writeClient _ => true | _ => false)
  let si := evs.findIdx? (fun e => match e with | .sendBackend _ => true | _ => false)
  match wi, si with
  | some i, some j => i < j
  | _, _ => false

/-- C2 counterexample: for the spec's own literal smart-ack scenario (a
3-argument SET), the iteration forwards the request to the backend intake
channel first and writes `+OK\r\n` second, so the canned reply is not
written before the forward. -/
theorem c2_counterexample :
    smartFastAck "SET" (strBytes "*3\r\n$3\r\nSET\r\n$1\r\nk\r\n$1\r\nv\r\n") true
        = some ⟨[.sendBackend (strBytes "*3\r\n$3\r\nSET\r\n$1\r\nk\r\n$1\r\nv\r\n"),
                 .writeClient (strBytes "+OK\r\n")], false⟩
      ∧ writeBeforeSendB [.sendBackend (strBytes "*3\r\n$3\r\nSET\r\n$1\r\nk\r\n$1\r\nv\r\n"),
                 .writeClient (strBytes "+OK\r\n")] = false := by
  decide

/-- C2 amended: in smart mode every fast-ack command gets exactly the
canned reply of the table — `+PONG\r\n` for PING, `+OK\r\n` for SET,
SETEX, PSETEX, MSET, HMSET and SELECT, `:1\r\n` for DEL, HSET, HDEL,
EXPIRE, EXPIREAT, PEXPIRE and PEXPIREAT — but the reply is written
immediately *after* the request has been forwarded to the backend intake
channel (a blocking send), not before. -/
theorem c2_fast_ack (cmd : String) (raw : List Nat) (reply : List Nat)
    (h : commandsLookup cmd = some reply) :
    smartFastAck cmd raw true = some ⟨[.sendBackend raw, .writeClient reply], false⟩
      ∧ commandsLookup "PING" = some (strBytes "+PONG\r\n")
      ∧ (∀ c ∈ ["SET", "SETEX", "PSETEX", "MSET", "HMSET", "SELECT"],
          commandsLookup c = some (strBytes "+OK\r\n"))
      ∧ (∀ c ∈ ["DEL", "HSET", "HDEL", "EXPIRE", "EXPIREAT", "PEXPIRE", "PEXPIREAT"],
          commandsLookup c = some (strBytes ":1\r\n")) := by
  refine ⟨?_, by decide, by decide, by decide⟩
  unfold smartFastAck
  rw [h]
  simp

/-- Witness for C2 at the command SET. -/
theorem c2_fast_ack_witness :
    (commandsLookup "SET" = some (strBytes "+OK\r\n"))
      ∧ (smartFastAck "SET" (strBytes "*3\r\n$3\r\nSET\r\n$1\r\nk\r\n$1\r\nv\r\n") true
          = some ⟨[.sendBackend (strBytes "*3\r\n$3\r\nSET\r\n$1\r\nk\r\n$1\r\nv\r\n"),
                   .writeClient (strBytes "+OK\r\n")], false⟩
        ∧ commandsLookup "PING" = some (strBytes "+PONG\r\n")
        ∧ (∀ c ∈ ["SET", "SETEX", "PSETEX", "MSET", "HMSET", "SELECT"],
            commandsLookup c = some (strBytes "+OK\r\n"))
        ∧ (∀ c ∈ ["DEL", "HSET", "HDEL", "EXPIRE", "EXPIREAT", "PEXPIRE", "PEXPIREAT"],
            commandsLookup c = some (strBytes ":1\r\n"))) :=
  ⟨by decide, c2_fast_ack "SET" (strBytes "*3\r\n$3\r\nSET\r\n$1\r\nk\r\n$1\r\nv\r\n")
    (strBytes "+OK\r\n") (by decide)⟩

/-! ## RESP parser (src/unnamed/part_003 `Parser.read`, identical logic in
src/redis/conn.go `Conn.parse`)

The input stream is a byte list; `readLine` models
`bufio.Reader.ReadBytes('\n')` followed by the wrapper that discards
partial data on error, and `readN` models `ReadN`/`io.ReadFull`.  The
request being filled is `PReq` (command and accumulated raw buffer), the
parser's per-connection state is the database index, and one `read` call
returns the Go function's byte-slice result, the updated request, the
updated database and the unconsumed remainder of the stream.  Fuel bounds
the recursion into array elements; every theorem states the fuel it uses.
A marginal divergence from Go: for a header line shorter than 3 bytes such
as `$\n`, Go's `line[1:len(line)-2]` panics on an inverted slice, while
the model yields the empty digit string and fails `Atoi`; no theorem below
touches such inputs. -/

/-- Parse-error identities of src/unnamed/part_003 lines 105-118 plus the
underlying I/O error and fuel exhaustion (an artifact of the embedding,
never reached in the theorems below). -/
inductive PErr
  | ioEOF
  | shortLine
  | atoiErr
  | missingCRLF
  | badArray
  | fuelOut
deriving DecidableEq

/-- The `Request` fields the parser fills: `command` and the raw `buffer`. -/
structure PReq where
  command : List Nat
  buffer : List Nat
deriving DecidableEq

/-- Result of one `Parser.read` call: Go's byte-slice return value, the
filled request, the parser's database, and the unread input remainder. -/
structure ReadOut where
  ret : List Nat
  req : PReq
  database : Int
  rest : List Nat
deriving DecidableEq

deriving instance DecidableEq for Except

/-- Models `Conn.readLine` / `Netbuf.ReadLine`: bytes up to and including
the first LF; with no LF in the stream the partial data is dropped and the
underlying I/O error is returned. -/
def readLine (s : List Nat) : Except PErr (List Nat × List Nat) :=
  let pre := s.takeWhile (fun b => b != 10)
  if pre.length = s.length then .error .ioEOF
  else .ok (pre ++ [10], s.drop (pre.length + 1))

/-- Models `Conn.readN` / `Netbuf.ReadN` / `io.ReadFull`: exactly `n`
bytes or an I/O error. -/
def readN (n : Nat) (s : List Nat) : Except PErr (List Nat × List Nat) :=
  if s.length < n then .error .ioEOF else .ok (s.take n, s.drop n)

/-- ASCII uppercase of one byte, the relevant fragment of `bytes.ToUpper`. -/
def upByte (b : Nat) : Nat := if 97 ≤ b ∧ b ≤ 122 then b - 32 else b

/-- ASCII uppercase of a byte string. -/
def upBytes (l : List Nat) : List Nat := l.map upByte

/-- ASCII whitespace, the relevant fragment of `bytes.TrimSpace`. -/
def isSpaceByte (b : Nat) : Bool := b = 32 || b = 9 || b = 10 || b = 11 || b = 12 || b = 13

/-- Models `bytes.TrimSpace` on ASCII data. -/
def trimSpace (l : List Nat) : List Nat :=
  ((l.dropWhile isSpaceByte).reverse.dropWhile isSpaceByte).reverse

/-- Value of an ASCII digit byte. -/
def digitVal (b : Nat) : Option Nat := if 48 ≤ b ∧ b ≤ 57 then some (b - 48) else none

/-- Big-endian decimal accumulation over digit bytes; any non-digit makes
the whole parse fail. -/
def digitsToNat (l : List Nat) : Option Nat :=
  l.foldl (fun acc b =>
    match acc, digitVal b with
    | some a, some d => some (a * 10 + d)
    | _, _ => none) (some 0)

/-- Largest int64, the range bound of `strconv.Atoi` on 64-bit platforms. -/
def int64Max : Nat := 9223372036854775807

/-- Models `strconv.Atoi`: optional single sign, at least one digit,
digits only, result within int64 range; `none` is Go's non-nil error
(including the out-of-range error, whose clamped value no caller uses). -/
def atoi (l : List Nat) : Option Int :=
  match l with
  | [] => none
  | b :: rest =>
    let sd : Bool × List Nat :=
      if b = 45 then (true, rest) else if b = 43 then (false, rest) else (false, l)
    match sd.2 with
    | [] => none
    | _ =>
      match digitsToNat sd.2 with
      | none => none
      | some v =>
        if sd.1 then (if v ≤ int64Max + 1 then some (-(v : Int)) else none)
        else (if v ≤ int64Max then some (v : Int) else none)

mutual

/-- Models `Parser.read` (src/unnamed/part_003 lines 33-103; the same
function appears as `Conn.parse` in src/redis/conn.go lines 100-170).
Branches on the first byte of the line: `+`/`-`/`:` append the line to the
raw buffer; `$N` parses the length, appends the header, and only for
`N > 0` reads the `N+2`-byte body, checks its trailing CRLF, interprets
the first payload as the command (or, when the command is already SELECT,
the payload as the new database index), and appends the body; `*N` with
`N < 0` and a clean `Atoi` returns `nil, err` with the nil `err` — a
success that consumes the header and writes nothing — and otherwise
appends the header and reads `N` sub-frames, wrapping their errors as the
malformed-array error.  Any other first byte is an inline request: the
line is appended and the command is the uppercased first space-separated
field. -/
def preadF : Nat → List Nat → PReq → Int → Bool → Except PErr ReadOut
  | 0, _, _, _, _ => .error .fuelOut
  | fuel + 1, s, r, db, parseCommand =>
    match readLine s with
    | .error e => .error e
    | .ok (line, s1) =>
      if line.length = 0 then .error .shortLine
      else
        match line.head? with
        | none => .error .shortLine
        | some b0 =>
          if b0 = 43 ∨ b0 = 45 ∨ b0 = 58 then
            .ok ⟨line, { r with buffer := r.buffer ++ line }, db, s1⟩
          else if b0 = 36 then
            match atoi (((line.drop 1).dropLast).dropLast) with
            | none => .error .atoiErr
            | some n =>
              let r1 : PReq := { r with buffer := r.buffer ++ line }
              if n > 0 then
                match readN (n.toNat + 2) s1 with
                | .error e => .error e
                | .ok (b, s2) =>
                  if b.drop n.toNat ≠ [13, 10] then .error .missingCRLF
                  else
                    let body := b.take n.toNat
                    let pr : List Nat × Int :=
                      if parseCommand then
                        if r1.command = [] then (upBytes body, db)
                        else if r1.command = strBytes "SELECT" then
                          match atoi body with
                          | some m => (r1.command, m)
                          | none => (r1.command, db)
                        else (r1.command, db)
                      else (r1.command, db)
                    .ok ⟨pr.1, { command := pr.1, buffer := r1.buffer ++ b }, pr.2, s2⟩
              else .ok ⟨r1.command, r1, db, s1⟩
          else if b0 = 42 then
            match atoi (((line.drop 1).dropLast).dropLast) with
            | none => .error .atoiErr
            | some n =>
              if n < 0 then .ok ⟨[], r, db, s1⟩
              else
                let r1 : PReq := { r with buffer := r.buffer ++ line }
                match preadManyF fuel n.toNat s1 r1 db parseCommand with
                | .error _ => .error .badArray
                | .ok (r2, db2, s2) => .ok ⟨r2.command, r2, db2, s2⟩
          else
            .ok ⟨line,
              { command := upBytes (trimSpace ((line.splitOn 32).headD [])),
                buffer := r.buffer ++ line }, db, s1⟩

/-- The `for i := 0; i < n; i++` loop of the `*N` branch: `count`
sequential sub-frame reads threading request, database and stream. -/
def preadManyF : Nat → Nat → List Nat → PReq → Int → Bool → Except PErr (PReq × Int × List Nat)
  | _, 0, s, r, db, _ => .ok (r, db, s)
  | 0, _ + 1, _, _, _, _ => .error .fuelOut
  | fuel + 1, count + 1, s, r, db, pc =>
    match preadF fuel s r db pc with
    | .error e => .error e
    | .ok o => preadManyF fuel count o.rest o.req o.database pc

end

/-- Models the `serveClient` loop of src/redis/server.go lines 340-353 as
far as parsing and stamping go: each iteration parses one request from the
stream with a fresh `Request{}`, stops on error, stops after QUIT (which
is never stamped), and otherwise stamps the request with the parser's
current database (`req.database = parser.database`).  `rf` is the fuel
given to each parse, `lf` bounds the number of iterations. -/
def serveStamps (rf : Nat) : Nat → Int → List Nat → List (PReq × Int)
  | 0, _, _ => []
  | lf + 1, db, s =>
    match preadF rf s ⟨[], []⟩ db true with
    | .error _ => []
    | .ok o =>
      if o.req.command = strBytes "QUIT" then []
      else (o.req, o.database) :: serveStamps rf lf o.database o.rest

/-- C1: evaluation at the failing input `$0\r\n\r\n`, a legal zero-length
bulk frame.  The parser accepts it but, because the body read is guarded
by `n > 0`, it stores only the 4 header bytes `$0\r\n` in the raw buffer
and leaves the 2-byte empty body `\r\n` unconsumed in the stream — the
raw buffer is not the frame and the frame is not fully consumed, so the
next parse on the connection sees a stray `\r\n` as an inline request. -/
theorem c1_zero_bulk_eval :
    preadF 10 (strBytes "$0\r\n\r\n") ⟨[], []⟩ 0 true
        = .ok ⟨[], ⟨[], strBytes "$0\r\n"⟩, 0, strBytes "\r\n"⟩
      ∧ strBytes "$0\r\n" ≠ strBytes "$0\r\n\r\n"
      ∧ strBytes "\r\n" ≠ [] := by
  decide

/-- C4: evaluation at the failing input `*-1\r\n`.  `Atoi("-1")` succeeds,
so the guard `n < 0 || err != nil` executes `return nil, err` with `err`
still nil: the parse of a negative-count array header returns success —
with nothing written to the raw buffer — rather than the non-nil error the
claim requires, and the dispatch loop therefore does not close the
connection. -/
theorem c4_negative_array_eval :
    preadF 10 (strBytes "*-1\r\n") ⟨[], []⟩ 0 true
        = .ok ⟨[], ⟨[], []⟩, 0, []⟩
      ∧ ∀ e : PErr, preadF 10 (strBytes "*-1\r\n") ⟨[], []⟩ 0 true ≠ .error e := by
  constructor
  · decide
  · intro e
    cases e <;> decide

/-! ## Request encoding and the SELECT database affinity (C3)

To quantify over well-formed client requests, multibulk frames are built
by an explicit encoder: `encodeBulk` renders one `$<len>\r\n<arg>\r\n`
element and `encodeMulti` a `*<count>\r\n` frame of such elements.  These
definitions follow the RESP grammar of the spec (they are statement
devices, not source embeddings) and the theorems relate the source-derived
parser to them. -/

/-- Big-endian decimal digit bytes of a natural number. -/
def natDec (n : Nat) : List Nat :=
  if n = 0 then [48] else (Nat.digits 10 n).reverse.map (fun d => d + 48)

/-- RESP bulk-string encoding of one argument. -/
def encodeBulk (a : List Nat) : List Nat :=
  36 :: (natDec a.length ++ [13, 10] ++ a ++ [13, 10])

/-- RESP multibulk encoding of an argument list. -/
def encodeMulti (args : List (List Nat)) : List Nat :=
  42 :: (natDec args.length ++ [13, 10] ++ (args.map encodeBulk).flatten)

theorem natDec_digits (n : Nat) : ∀ b ∈ natDec n, 48 ≤ b ∧ b ≤ 57 := by
  intro b hb
  unfold natDec at hb
  by_cases h0 : n = 0
  · simp [h0] at hb
    omega
  · rw [if_neg h0] at hb
    simp only [List.mem_map, List.mem_reverse] at hb
    obtain ⟨d, hd, hdb⟩ := hb
    have := Nat.digits_lt_base (by omega) hd
    omega

theorem natDec_ne_nil (n : Nat) : natDec n ≠ [] := by
  unfold natDec
  by_cases h0 : n = 0
  · simp [h0]
  · simp only [h0, if_neg h0]
    simp [Nat.digits_ne_nil_iff_ne_zero.mpr h0]

theorem digitsFold_eq (L : List Nat) (a : Nat) (h : ∀ d ∈ L, d < 10) :
    (L.reverse.map (fun d => d + 48)).foldl
        (fun acc b =>
          match acc, digitVal b with
          | some a, some d => some (a * 10 + d)
          | _, _ => none) (some a)
      = some (a * 10 ^ L.length + Nat.ofDigits 10 L) := by
  induction L generalizing a with
  | nil => simp [Nat.ofDigits]
  | cons d L ih =>
    have hd : d < 10 := h d (by simp)
    have hL : ∀ x ∈ L, x < 10 := fun x hx => h x (by simp [hx])
    have hstep : (L.reverse.map (fun d => d + 48)) ++ [d + 48]
        = ((d :: L).reverse.map (fun d => d + 48)) := by
      simp
    rw [← hstep, List.foldl_append, ih a hL]
    have hdv : digitVal (d + 48) = some d := by
      unfold digitVal
      rw [if_pos (by omega)]
      simp
    simp only [List.foldl_cons, List.foldl_nil, hdv]
    rw [Nat.ofDigits_cons]
    congr 1
    rw [List.length_cons, Nat.pow_succ]
    ring

theorem digitsToNat_natDec (n : Nat) : digitsToNat (natDec n) = some n := by
  by_cases h0 : n = 0
  · subst h0
    decide
  · unfold digitsToNat natDec
    rw [if_neg h0]
    rw [digitsFold_eq (Nat.digits 10 n) 0 (fun d hd => Nat.digits_lt_base (by omega) hd)]
    simp only [Nat.zero_mul, Nat.zero_add, Nat.ofDigits_digits]

theorem atoi_natDec (n : Nat) (h : n ≤ int64Max) : atoi (natDec n) = some (n : Int) := by
  obtain ⟨b, rest, hl⟩ : ∃ b rest, natDec n = b :: rest := by
    cases hnd : natDec n with
    | nil => exact absurd hnd (natDec_ne_nil n)
    | cons b rest => exact ⟨b, rest, rfl⟩
  have hb : 48 ≤ b ∧ b ≤ 57 := natDec_digits n b (by rw [hl]; simp)
  have hb45 : ¬ b = 45 := by omega
  have hb43 : ¬ b = 43 := by omega
  have hdd : digitsToNat (b :: rest) = some n := by rw [← hl]; exact digitsToNat_natDec n
  rw [hl]
  unfold atoi
  simp only [if_neg hb45, if_neg hb43]
  rw [hdd]
  simp [h]

theorem takeWhile_append_stop (pre s : List Nat) (h : ∀ b ∈ pre, b ≠ 10) :
    (pre ++ 10 :: s).takeWhile (fun b => b != 10) = pre := by
  induction pre with
  | nil => simp
  | cons x xs ih =>
    have hx : (x != 10) = true := by
      have := h x (by simp)
      simpa using this
    simp only [List.cons_append, List.takeWhile_cons, hx, if_true]
    rw [ih (fun b hb => h b (by simp [hb]))]

theorem readLine_append (pre s : List Nat) (h : ∀ b ∈ pre, b ≠ 10) :
    readLine (pre ++ 10 :: s) = .ok (pre ++ [10], s) := by
  simp only [readLine, takeWhile_append_stop pre s h]
  have hlen : ¬ pre.length = (pre ++ 10 :: s).length := by
    simp
  rw [if_neg hlen]
  have hassoc : pre ++ 10 :: s = (pre ++ [10]) ++ s := by simp
  rw [hassoc, List.drop_left' (by simp)]

theorem readN_exact (t s : List Nat) : readN t.length (t ++ s) = .ok (t, s) := by
  unfold readN
  rw [if_neg (by simp), List.take_left' rfl, List.drop_left' rfl]

/-- Effect of parsing one encoded bulk argument on the request command and
the connection database, mirroring the command/SELECT logic of the `$`
branch of `Parser.read`. -/
def bulkEffect (cmd : List Nat) (db : Int) (a : List Nat) : List Nat × Int :=
  if cmd = [] then (upBytes a, db)
  else if cmd = strBytes "SELECT" then
    match atoi a with
    | some m => (cmd, m)
    | none => (cmd, db)
  else (cmd, db)

theorem pread_bulk (fuel : Nat) (a s : List Nat) (r : PReq) (db : Int)
    (ha : a ≠ []) (hlen : a.length ≤ int64Max) :
    preadF (fuel + 1) (encodeBulk a ++ s) r db true
      = .ok ⟨(bulkEffect r.command db a).1,
             ⟨(bulkEffect r.command db a).1, r.buffer ++ encodeBulk a⟩,
             (bulkEffect r.command db a).2, s⟩ := by
  have hline : readLine (encodeBulk a ++ s)
      = .ok ((36 :: (natDec a.length ++ [13])) ++ [10], (a ++ [13, 10]) ++ s) := by
    have hsplit : encodeBulk a ++ s
        = (36 :: (natDec a.length ++ [13])) ++ 10 :: ((a ++ [13, 10]) ++ s) := by
      simp [encodeBulk]
    rw [hsplit]
    apply readLine_append
    intro b hb
    simp only [List.mem_cons, List.mem_append, List.mem_singleton] at hb
    rcases hb with hb | hb | hb
    · omega
    · have := natDec_digits a.length b hb
      omega
    · simp at hb
      omega
  have hpos0 : 0 < a.length := List.length_pos.mpr ha
  have hpos : ((a.length : Nat) : Int) > 0 := by exact_mod_cast hpos0
  have hreadN : readN (a.length + 2) (a ++ 13 :: 10 :: s) = Except.ok (a ++ [13, 10], s) := by
    have h2 : a ++ 13 :: 10 :: s = (a ++ [13, 10]) ++ s := by simp
    have h3 : a.length + 2 = (a ++ [13, 10]).length := by simp
    rw [h2, h3, readN_exact]
  have hdrop : (a ++ [13, 10]).drop a.length = [13, 10] := List.drop_left' rfl
  have htake : (a ++ [13, 10]).take a.length = a := List.take_left' rfl
  simp only [preadF, hline]
  simp [List.dropLast_append_of_ne_nil, List.dropLast, atoi_natDec a.length hlen, hpos,
        Int.toNat_natCast, hreadN, hdrop, htake, bulkEffect, encodeBulk, List.append_assoc]

/-- Database evolution over the encoded arguments after the first: when
the already-set command is SELECT, every argument that parses as a decimal
integer updates the database. -/
def dbSteps (cmd : List Nat) (db : Int) (rest : List (List Nat)) : Int :=
  rest.foldl (fun d a =>
    if cmd = strBytes "SELECT" then
      match atoi a with
      | some m => m
      | none => d
    else d) db

theorem bulkEffect_cmd (cmd : List Nat) (db : Int) (a : List Nat) (hcmd : cmd ≠ []) :
    (bulkEffect cmd db a).1 = cmd := by
  unfold bulkEffect
  rw [if_neg hcmd]
  by_cases hsel : cmd = strBytes "SELECT"
  · rw [if_pos hsel]
    cases atoi a <;> simp
  · rw [if_neg hsel]

theorem dbSteps_cons (cmd : List Nat) (db : Int) (a : List Nat) (rest : List (List Nat))
    (hcmd : cmd ≠ []) :
    dbSteps cmd db (a :: rest) = dbSteps cmd ((bulkEffect cmd db a).2) rest := by
  unfold dbSteps
  rw [List.foldl_cons]
  congr 1
  unfold bulkEffect
  rw [if_neg hcmd]
  by_cases hsel : cmd = strBytes "SELECT"
  · rw [if_pos hsel, if_pos hsel]
    cases atoi a <;> simp
  · rw [if_neg hsel, if_neg hsel]

/-- Joint command/database evolution over a sequence of encoded
arguments, folding `bulkEffect`. -/
def multiFold (cmd : List Nat) (db : Int) (args : List (List Nat)) : List Nat × Int :=
  args.foldl (fun p a => bulkEffect p.1 p.2 a) (cmd, db)

theorem pread_args (args : List (List Nat)) (g : Nat) (s : List Nat) (r : PReq) (db : Int)
    (hwf : ∀ a ∈ args, a ≠ [] ∧ a.length ≤ int64Max) :
    preadManyF (args.length + g + 1) args.length ((args.map encodeBulk).flatten ++ s) r db true
      = .ok (⟨(multiFold r.command db args).1, r.buffer ++ (args.map encodeBulk).flatten⟩,
             (multiFold r.command db args).2, s) := by
  induction args generalizing g s r db with
  | nil => simp [preadManyF, multiFold]
  | cons a rest ih =>
    have hwa := hwf a (by simp)
    have hwrest : ∀ x ∈ rest, x ≠ [] ∧ x.length ≤ int64Max :=
      fun x hx => hwf x (by simp [hx])
    have hfuel : (a :: rest).length + g + 1 = (rest.length + g + 1) + 1 := by
      simp [List.length_cons]
      omega
    have hcount : (a :: rest).length = rest.length + 1 := by simp
    have hstream : (((a :: rest).map encodeBulk).flatten ++ s)
        = encodeBulk a ++ ((rest.map encodeBulk).flatten ++ s) := by
      simp
    rw [hfuel, hcount, hstream]
    simp only [preadManyF]
    rw [pread_bulk (rest.length + g) a ((rest.map encodeBulk).flatten ++ s) r db hwa.1 hwa.2]
    simp only []
    rw [ih g s ⟨(bulkEffect r.command db a).1, r.buffer ++ encodeBulk a⟩
        ((bulkEffect r.command db a).2) hwrest]
    have hmf : multiFold r.command db (a :: rest)
        = multiFold (bulkEffect r.command db a).1 (bulkEffect r.command db a).2 rest := by
      unfold multiFold
      rw [List.foldl_cons]
    rw [hmf]
    simp [List.append_assoc]

theorem multiFold_of_set (cmd : List Nat) (db : Int) (args : List (List Nat))
    (hcmd : cmd ≠ []) : multiFold cmd db args = (cmd, dbSteps cmd db args) := by
  induction args generalizing db with
  | nil => simp [multiFold, dbSteps]
  | cons a rest ih =>
    have h1 : multiFold cmd db (a :: rest)
        = multiFold (bulkEffect cmd db a).1 (bulkEffect cmd db a).2 rest := by
      unfold multiFold
      rw [List.foldl_cons]
    rw [h1, bulkEffect_cmd cmd db a hcmd, ih ((bulkEffect cmd db a).2),
      dbSteps_cons cmd db a rest hcmd]

theorem pread_frame (a0 : List Nat) (rest : List (List Nat)) (g : Nat) (s : List Nat) (db : Int)
    (hwf : ∀ a ∈ (a0 :: rest), a ≠ [] ∧ a.length ≤ int64Max)
    (hcnt : (a0 :: rest).length ≤ int64Max) :
    preadF ((a0 :: rest).length + g + 2) (encodeMulti (a0 :: rest) ++ s) ⟨[], []⟩ db true
      = .ok ⟨upBytes a0, ⟨upBytes a0, encodeMulti (a0 :: rest)⟩,
             dbSteps (upBytes a0) db rest, s⟩ := by
  have hline : readLine (encodeMulti (a0 :: rest) ++ s)
      = .ok ((42 :: (natDec (a0 :: rest).length ++ [13])) ++ [10],
             ((a0 :: rest).map encodeBulk).flatten ++ s) := by
    have hsplit : encodeMulti (a0 :: rest) ++ s
        = (42 :: (natDec (a0 :: rest).length ++ [13]))
            ++ 10 :: (((a0 :: rest).map encodeBulk).flatten ++ s) := by
      simp [encodeMulti]
    rw [hsplit]
    apply readLine_append
    intro b hb
    simp only [List.mem_cons, List.mem_append, List.mem_singleton] at hb
    rcases hb with hb | hb | hb
    · omega
    · have := natDec_digits (a0 :: rest).length b hb
      omega
    · simp at hb
      omega
  have hfuel : (a0 :: rest).length + g + 2 = ((a0 :: rest).length + g + 1) + 1 := by omega
  rw [hfuel]
  simp only [preadF, hline]
  have h0 := hwf a0 (by simp)
  have hup : upBytes a0 ≠ [] := by
    simpa [upBytes] using h0.1
  have hmf : multiFold [] db (a0 :: rest) = (upBytes a0, dbSteps (upBytes a0) db rest) := by
    have h1 : bulkEffect [] db a0 = (upBytes a0, db) := by
      unfold bulkEffect
      simp
    have h2 : multiFold [] db (a0 :: rest) = multiFold (upBytes a0) db rest := by
      unfold multiFold
      rw [List.foldl_cons, h1]
    rw [h2, multiFold_of_set (upBytes a0) db rest hup]
  have hmany := pread_args (a0 :: rest) g s
      ⟨[], 42 :: (natDec (rest.length + 1) ++ [13, 10])⟩ db hwf
  simp only [List.length_cons, List.map_cons, List.flatten_cons, List.append_assoc, hmf] at hmany
  simp [List.dropLast_append_of_ne_nil, List.dropLast,
        atoi_natDec (rest.length + 1) (by simpa using hcnt), Int.toNat_natCast, hmany,
        encodeMulti, List.append_assoc]
  omega

theorem preadF_nilStream (rf : Nat) (r : PReq) (db : Int) (pc : Bool) :
    ∃ e, preadF rf [] r db pc = .error e := by
  cases rf with
  | zero => exact ⟨.fuelOut, rfl⟩
  | succ n => exact ⟨.ioEOF, rfl⟩

theorem serveStamps_nilStream (rf lf : Nat) (db : Int) : serveStamps rf lf db [] = [] := by
  cases lf with
  | zero => rfl
  | succ m =>
    obtain ⟨e, he⟩ := preadF_nilStream rf ⟨[], []⟩ db true
    simp [serveStamps, he]

theorem dbSteps_other (cmd : List Nat) (db : Int) (rest : List (List Nat))
    (h : cmd ≠ strBytes "SELECT") : dbSteps cmd db rest = db := by
  induction rest generalizing db with
  | nil => rfl
  | cons a t ih =>
    unfold dbSteps
    rw [List.foldl_cons, if_neg h]
    exact ih db

theorem serveStamps_frames (frames : List (List (List Nat))) (db : Int) (rf lf : Nat)
    (hwf : ∀ f ∈ frames, f ≠ [] ∧ (∀ a ∈ f, a ≠ [] ∧ a.length ≤ int64Max)
        ∧ f.length ≤ int64Max)
    (hverb : ∀ f ∈ frames, upBytes (f.headD []) ≠ strBytes "SELECT"
        ∧ upBytes (f.headD []) ≠ strBytes "QUIT")
    (hrf : ∀ f ∈ frames, f.length + 2 ≤ rf)
    (hlf : frames.length + 1 ≤ lf) :
    serveStamps rf lf db ((frames.map encodeMulti).flatten)
      = frames.map (fun f => ((⟨upBytes (f.headD []), encodeMulti f⟩ : PReq), db)) := by
  induction frames generalizing lf with
  | nil => simp [serveStamps_nilStream]
  | cons f frames ih =>
    obtain ⟨hfne, hfargs, hfcnt⟩ := hwf f (by simp)
    obtain ⟨hfsel, hfquit⟩ := hverb f (by simp)
    obtain ⟨a0, rest, rfl⟩ : ∃ a0 rest, f = a0 :: rest := by
      cases f with
      | nil => exact absurd rfl hfne
      | cons x xs => exact ⟨x, xs, rfl⟩
    obtain ⟨m, rfl⟩ : ∃ m, lf = m + 1 := ⟨lf - 1, by simp at hlf; omega⟩
    have hrfme := hrf (a0 :: rest) (by simp)
    have hg : rf = (a0 :: rest).length + (rf - (a0 :: rest).length - 2) + 2 := by omega
    have hframe : preadF rf
        (encodeMulti (a0 :: rest) ++ (frames.map encodeMulti).flatten) ⟨[], []⟩ db true
        = .ok ⟨upBytes a0, ⟨upBytes a0, encodeMulti (a0 :: rest)⟩,
               dbSteps (upBytes a0) db rest, (frames.map encodeMulti).flatten⟩ := by
      conv_lhs => rw [hg]
      exact pread_frame a0 rest (rf - (a0 :: rest).length - 2)
        ((frames.map encodeMulti).flatten) db hfargs hfcnt
    have hdb : dbSteps (upBytes a0) db rest = db :=
      dbSteps_other (upBytes a0) db rest (by simpa using hfsel)
    have hquit : ¬ (upBytes a0 = strBytes "QUIT") := by simpa using hfquit
    simp only [List.map_cons, List.flatten_cons]
    simp only [serveStamps, hframe, hdb, hquit, if_neg]
    have hwf2 : ∀ x ∈ frames, x ≠ [] ∧ (∀ a ∈ x, a ≠ [] ∧ a.length ≤ int64Max)
        ∧ x.length ≤ int64Max :=
      fun x hx => hwf x (List.mem_cons_of_mem _ hx)
    have hverb2 : ∀ x ∈ frames, upBytes (x.headD []) ≠ strBytes "SELECT"
        ∧ upBytes (x.headD []) ≠ strBytes "QUIT" :=
      fun x hx => hverb x (List.mem_cons_of_mem _ hx)
    have hrf2 : ∀ x ∈ frames, x.length + 2 ≤ rf :=
      fun x hx => hrf x (List.mem_cons_of_mem _ hx)
    have hlf2 : frames.length + 1 ≤ m := by
      simp only [List.length_cons] at hlf
      omega
    rw [ih m hwf2 hverb2 hrf2 hlf2]
    simp

theorem map_const_eq_replicate {α β : Type} (l : List α) (c : β) :
    l.map (fun _ => c) = List.replicate l.length c := by
  induction l with
  | nil => rfl
  | cons x t ih => simp [List.replicate_succ, ih]

theorem map_snd_const {α β γ : Type} (l : List α) (g : α → β) (c : γ) :
    l.map (Prod.snd ∘ fun x => (g x, c)) = List.replicate l.length c := by
  induction l with
  | nil => rfl
  | cons x t ih =>
    simp only [List.map_cons, Function.comp_apply, List.length_cons, List.replicate_succ, ih]

theorem natDec_len_le19 (k : Nat) (hk : k ≤ int64Max) : (natDec k).length ≤ 19 := by
  unfold natDec
  by_cases h0 : k = 0
  · simp [h0]
  · rw [if_neg h0]
    simp only [List.length_map, List.length_reverse]
    have h1 : (Nat.digits 10 k).length ≤ (Nat.digits 10 9223372036854775807).length :=
      Nat.le_digits_len_le 10 k 9223372036854775807 (by unfold int64Max at hk; omega)
    have h2 : (Nat.digits 10 9223372036854775807).length = 19 := by simp
    omega

/-- C3: on one connection, parsing a multibulk `SELECT k` request (`k` a
decimal within the `Atoi` range) sets the parser's per-connection database
index to `k`, and every subsequently parsed request — here an arbitrary
sequence of well-formed multibulk requests whose verbs are neither SELECT
nor QUIT — is stamped by the dispatch loop with `database == k`: every
stamp the loop produces from the SELECT onward equals `k`. -/
theorem c3_db_affinity (k : Nat) (hk : k ≤ int64Max) (db0 : Int)
    (frames : List (List (List Nat))) (rf lf : Nat)
    (hwf : ∀ f ∈ frames, f ≠ [] ∧ (∀ a ∈ f, a ≠ [] ∧ a.length ≤ int64Max)
        ∧ f.length ≤ int64Max)
    (hverb : ∀ f ∈ frames, upBytes (f.headD []) ≠ strBytes "SELECT"
        ∧ upBytes (f.headD []) ≠ strBytes "QUIT")
    (hrf : ∀ f ∈ frames, f.length + 2 ≤ rf) (hrfs : 4 ≤ rf)
    (hlf : frames.length + 2 ≤ lf) :
    (serveStamps rf lf db0
        (encodeMulti [strBytes "SELECT", natDec k]
          ++ (frames.map encodeMulti).flatten)).map Prod.snd
      = List.replicate (frames.length + 1) (k : Int) := by
  have hselwf : ∀ a ∈ (strBytes "SELECT" :: [natDec k]), a ≠ [] ∧ a.length ≤ int64Max := by
    intro a ha
    simp only [List.mem_cons, List.mem_singleton] at ha
    rcases ha with ha | ha
    · subst ha
      exact ⟨by decide, by decide⟩
    · simp at ha
      subst ha
      refine ⟨natDec_ne_nil k, ?_⟩
      have := natDec_len_le19 k hk
      unfold int64Max
      omega
  have hselcnt : (strBytes "SELECT" :: [natDec k]).length ≤ int64Max := by
    simp only [List.length_cons, List.length_nil]
    unfold int64Max
    omega
  obtain ⟨m, rfl⟩ : ∃ m, lf = m + 1 := ⟨lf - 1, by omega⟩
  have hg : rf = (strBytes "SELECT" :: [natDec k]).length + (rf - 4) + 2 := by
    simp only [List.length_cons, List.length_nil]
    omega
  have hframe : preadF rf
      (encodeMulti (strBytes "SELECT" :: [natDec k]) ++ (frames.map encodeMulti).flatten)
      ⟨[], []⟩ db0 true
      = .ok ⟨upBytes (strBytes "SELECT"),
             ⟨upBytes (strBytes "SELECT"), encodeMulti (strBytes "SELECT" :: [natDec k])⟩,
             dbSteps (upBytes (strBytes "SELECT")) db0 [natDec k],
             (frames.map encodeMulti).flatten⟩ := by
    conv_lhs => rw [hg]
    exact pread_frame (strBytes "SELECT") [natDec k] (rf - 4)
      ((frames.map encodeMulti).flatten) db0 hselwf hselcnt
  have hup : upBytes (strBytes "SELECT") = strBytes "SELECT" := by decide
  have hdbsel : dbSteps (upBytes (strBytes "SELECT")) db0 [natDec k] = (k : Int) := by
    rw [hup]
    unfold dbSteps
    rw [List.foldl_cons, if_pos rfl, atoi_natDec k hk]
    rfl
  have hquit : ¬ (upBytes (strBytes "SELECT") = strBytes "QUIT") := by decide
  simp only [serveStamps, hframe, hdbsel, hquit, if_neg]
  have hlf2 : frames.length + 1 ≤ m := by omega
  rw [serveStamps_frames frames (k : Int) rf m hwf hverb hrf hlf2]
  simp [List.replicate_succ]
  exact map_snd_const frames _ _

/-- Witness for C3: `SELECT 3` followed by a `GET x` request; both stamps
equal 3. -/
theorem c3_db_affinity_witness :
    (3 ≤ int64Max)
      ∧ ((serveStamps 10 10 0
            (encodeMulti [strBytes "SELECT", natDec 3]
              ++ ([[strBytes "GET", strBytes "x"]].map encodeMulti).flatten)).map Prod.snd
          = List.replicate 2 (3 : Int)) :=
  ⟨by decide, c3_db_affinity 3 (by decide) 0 [[strBytes "GET", strBytes "x"]] 10 10
    (by decide) (by decide) (by decide) (by decide) (by decide)⟩
